import Mathlib

/-!
Verification of the multi-account mail classification & aggregation pipeline
of the Kiss repository (Express server, `src/unnamed/part_000`).

The embedding models the three core routes:
* `GET  /api/emails/filter`              (lines 292-398)  — `filterRoute`
* `POST /api/emails/:accountId/smart-filter` (lines 612-670) — `smartFilterRoute`
* `GET  /api/emails/:accountId/insights` (lines 673-760)  — `insightsRoute`

External collaborators (`userService`, `gmailService`, `chatgptService`) and
the JS `Date` parser are modelled as oracles packaged in `AccountEnv` and a
`pd : String → Option Int` date-parse function; a `.error ()` value of an
oracle models the corresponding call throwing.  JavaScript's
`Array.prototype.sort` is modelled by a stable insertion sort over the exact
comparator of line 386, with the ECMAScript rule that a NaN comparator
result is treated as `+0`.
-/

namespace MailPipeline

deriving instance DecidableEq for Except

/-! ## Keyword Heuristic Engine (lines 306-310)

Each JS regex is a case-insensitive alternation of literal substrings
(no word boundaries), so a match is exactly "some alternative occurs as a
substring of the lower-cased text".  `Char.toLower` matches JS behaviour on
ASCII, which covers every pattern character used. -/

/-- Does `pat` occur at the head of `s`? -/
def leadMatch : List Char → List Char → Bool
  | [], _ => true
  | _ :: _, [] => false
  | a :: as, b :: bs => a == b && leadMatch as bs

/-- Does `pat` occur anywhere inside `s`? -/
def hasSub (pat : List Char) : List Char → Bool
  | [] => leadMatch pat []
  | c :: rest => leadMatch pat (c :: rest) || hasSub pat rest

/-- Lower-cased character list of a string. -/
def lowerOf (s : String) : List Char := s.toList.map Char.toLower

/-- Case-insensitive substring test (one regex alternative against the text). -/
def containsCI (text pat : String) : Bool :=
  hasSub (lowerOf pat) (lowerOf text)

/-- `re.test(text)` for an alternation regex given as its list of literals. -/
def testKeywords (pats : List String) (text : String) : Bool :=
  pats.any (fun p => containsCI text p)

/-- Line 307: `/invoice|receipt|bill|.../i`. -/
def financialKeywords : List String :=
  ["invoice", "receipt", "bill", "payment", "statement", "bank", "subscription",
   "tax", "credit", "charge", "paypal", "stripe", "transaction", "order",
   "refund", "amount", "due", "warranty"]

/-- Line 308: `/urgent|asap|.../i`. -/
def urgentKeywords : List String :=
  ["urgent", "asap", "immediate", "overdue", "important", "action required",
   "past due", "final notice", "respond now"]

/-- Line 309: `/lead|opportunit|.../i`. -/
def leadsKeywords : List String :=
  ["lead", "opportunit", "proposal", "quote", "estimate", "rfp", "rfq", "demo",
   "trial", "pricing", "partnership", "collaborat", "sales inquiry", "new client"]

/-- Line 310: `/friend|family|.../i` (the escaped `x\.com` is the literal `x.com`). -/
def socialKeywords : List String :=
  ["friend", "family", "invitation", "invite", "party", "birthday", "wedding",
   "linkedin", "facebook", "instagram", "twitter", "x.com", "follow", "connect",
   "social"]

/-! ## Data model -/

/-- A mail message.  A field that is absent in the JS object is modelled as
`""` (the route always guards text fields with `|| ''`).  `sender` models the
JS `from` field (`from` is a Lean keyword).  `date` is the raw date string;
parsing it is an oracle. -/
structure Email where
  id : String
  subject : String
  snippet : String
  body : String
  date : String
  sender : String
deriving DecidableEq, Repr

/-- The structured judgment returned by `chatgptService.processEmail(...).result`.
`none` models an absent/null field. -/
structure Judgment where
  priority_score : Option Int
  primary_category : Option String
  sub_category : Option String
deriving DecidableEq, Repr

/-- JS `x || d` for a numeric field: `undefined`/`null` and the falsy `0`
fall back to the default. -/
def jsOrInt (o : Option Int) (d : Int) : Int :=
  match o with
  | none => d
  | some 0 => d
  | some v => v

/-- JS `x || d` for a string field: `undefined`/`null` and the falsy `""`
fall back to the default. -/
def jsOrStr (o : Option String) (d : String) : String :=
  match o with
  | none => d
  | some "" => d
  | some s => s

/-- One element pushed onto `allFilteredEmails` (lines 324, 332, 374). -/
structure Entry where
  email : Email
  accountId : String
  accountEmail : String
deriving DecidableEq, Repr

/-- The oracles one account exposes to the pipeline.

* `tokens = false` models `getGmailTokens` yielding nothing (line 315).
* `getCategorized n` models `gmailService.getCategorizedEmails(tokens, n)`,
  already projected to the `'Financial & Bills'` bucket; `none` models an
  absent bucket (line 320 falls back to `[]`).
* `getRecent n` models `gmailService.getEmails(tokens, null, n, ...)`,
  projected to `.emails`; `none` models an absent `.emails` field.
* `fetchFull i` models `gmailService.getEmailById(tokens, i)`.
* `classify e task` models `chatgptService.processEmail(e, task).result`.
* `getFiltered` models `gmailService.getFilteredEmails(tokens, opts)`,
  projected to `.emails` (insights route, line 691).

An `.error ()` result models the call throwing. -/
structure AccountEnv where
  id : String
  email : String
  tokens : Bool
  getCategorized : Nat → Except Unit (Option (List Email))
  getRecent : Nat → Except Unit (Option (List Email))
  fetchFull : String → Except Unit Email
  classify : Email → String → Except Unit Judgment
  getFiltered : Except Unit (Option (List Email))

/-- Lines 348, 356, 363: text used by the general-task heuristics
(`subject + ' ' + body` of the detail-fetched message). -/
def fullText (e : Email) : String := e.subject ++ " " ++ e.body

/-- Lines 322, 330: text used by the financial heuristics
(`subject + ' ' + snippet` of the summary message). -/
def summaryText (e : Email) : String := e.subject ++ " " ++ e.snippet

/-- The keyword heuristic the filter route applies for a task type on the
detail-fetched text (general tasks only; `financial` is special-cased and any
other string hits the `default` arm). -/
def heuristicFor (t : String) (text : String) : Bool :=
  if t = "urgent" then testKeywords urgentKeywords text
  else if t = "leads" then testKeywords leadsKeywords text
  else if t = "social" then testKeywords socialKeywords text
  else false

/-- The `switch (type)` of lines 346-371 for one detail-fetched message.
Returns the `shouldInclude` outcome (or the classifier's thrown error) paired
with the number of semantic-classifier calls issued for this message/task
pair (ghost instrumentation; a thrown call still counts as issued). -/
def decideInclude (env : AccountEnv) (t : String) (fe : Email) :
    Except Unit Bool × Nat :=
  if t = "urgent" then
    if testKeywords urgentKeywords (fullText fe) then (.ok true, 0)
    else
      match env.classify fe "priority_score" with
      | .ok j => (.ok (decide (8 ≤ jsOrInt j.priority_score 5)), 1)
      | .error u => (.error u, 1)
  else if t = "leads" then
    if testKeywords leadsKeywords (fullText fe) then (.ok true, 0)
    else
      match env.classify fe "smart_categorize" with
      | .ok j => (.ok (j.primary_category == some "work" &&
                       j.sub_category == some "project"), 1)
      | .error u => (.error u, 1)
  else if t = "social" then
    if testKeywords socialKeywords (fullText fe) then (.ok true, 0)
    else
      match env.classify fe "smart_categorize" with
      | .ok j => (.ok (j.primary_category == some "social" ||
                       j.primary_category == some "personal"), 1)
      | .error u => (.error u, 1)
  else (.ok false, 0)

/-- The entry pushed for a match (`{ email, accountId, accountEmail }`). -/
def entryOf (env : AccountEnv) (e : Email) : Entry := ⟨e, env.id, env.email⟩

/-- The body of the per-message `try` of lines 342-375: detail-fetch, decide,
and the push value; an `.error` is what the per-message `catch` receives. -/
def processOneE (env : AccountEnv) (t : String) (e : Email) :
    Except Unit (Option Entry) :=
  match env.fetchFull e.id with
  | .error u => .error u
  | .ok fe =>
    match (decideInclude env t fe).1 with
    | .error u => .error u
    | .ok b => .ok (if b then some (entryOf env fe) else none)

/-- Per-message outcome after the `catch` of lines 376-378: a thrown message
contributes nothing and iteration continues. -/
def processOne (env : AccountEnv) (t : String) (e : Email) : Option Entry :=
  match processOneE env t e with
  | .ok r => r
  | .error _ => none

/-- Lines 339-379 for one account (general tasks): fetch a pool of `ps`
messages and classify each.  Returns the new accumulator and the list of
pool sizes requested from `getEmails` (ghost trace). -/
def generalStep (env : AccountEnv) (t : String) (ps : Nat)
    (acc : List Entry) : List Entry × List Nat :=
  match env.getRecent ps with
  | .error _ => (acc, [ps])
  | .ok o => (acc ++ (o.getD []).filterMap (processOne env t), [ps])

/-- Lines 318-337 for one account (the `financial` special case): heuristic
over the categorized `'Financial & Bills'` bucket, with a raw-pool fallback
guarded by `allFilteredEmails.length === 0` — the GLOBAL accumulator.  The
fallback fetch requests `rm` (= `requestedMax`) messages, not `poolSize`.
Second component: pool sizes requested (categorized fetch = 200, line 319). -/
def financialStep (env : AccountEnv) (rm : Nat) (acc : List Entry) :
    List Entry × List Nat :=
  match env.getCategorized 200 with
  | .error _ => (acc, [])
  | .ok o =>
    let acc1 := acc ++ ((o.getD []).filter
      (fun e => testKeywords financialKeywords (summaryText e))).map (entryOf env)
    if acc1.length = 0 then
      match env.getRecent rm with
      | .error _ => (acc1, [200, rm])
      | .ok po =>
        (acc1 ++ ((po.getD []).filter
          (fun e => testKeywords financialKeywords (summaryText e))).map (entryOf env),
         [200, rm])
    else (acc1, [200])

/-- The body of the per-account `try` of lines 312-383 (with its `catch`
absorbing account-level throws, which all happen before any push of this
account except the financial fallback fetch, whose partial state is kept). -/
def accountStep (t : String) (rm ps : Nat) (acc : List Entry)
    (env : AccountEnv) : List Entry × List Nat :=
  if env.tokens = false then (acc, [])
  else if t = "financial" then financialStep env rm acc
  else generalStep env t ps acc

/-- The account loop of lines 312-383: fold the per-account step over the
resolved accounts, threading the shared `allFilteredEmails` collector and
accumulating the fetch-size trace. -/
def collectAll (envs : List AccountEnv) (t : String) (rm ps : Nat) :
    List Entry × List Nat :=
  envs.foldl
    (fun p env =>
      let r := accountStep t rm ps p.1 env
      (r.1, p.2 ++ r.2))
    ([], [])

/-! ## Aggregator & Ranker (lines 385-391) -/

/-- The comparator of line 386, `new Date(b.email.date) - new Date(a.email.date)`,
under the ECMAScript rule that a NaN comparator result is treated as `+0`:
if either date fails to parse the subtraction is NaN, hence `0`. -/
def jsCompare (pd : String → Option Int) (a b : Entry) : Int :=
  match pd b.email.date, pd a.email.date with
  | some tb, some ta => tb - ta
  | _, _ => 0

/-- `x` may be placed no later than `y` under the line-386 comparator. -/
def jsLe (pd : String → Option Int) (a b : Entry) : Bool :=
  decide (jsCompare pd a b ≤ 0)

/-- Stable insertion of `x` after every element it compares `le`-after. -/
def stInsert (le : α → α → Bool) (x : α) : List α → List α
  | [] => [x]
  | y :: ys => if le y x then y :: stInsert le x ys else x :: y :: ys

/-- Stable sort (left-to-right insertion), the model of the ES2019+
`Array.prototype.sort` (which is required to be stable; with an inconsistent
comparator — which line 386 is when a date fails to parse — the ECMAScript
result order is implementation-defined, and this model fixes one stable
realization). -/
def stSort (le : α → α → Bool) (l : List α) : List α :=
  l.foldl (fun s x => stInsert le x s) []

/-- The insertion-sort fold with an explicit accumulator. -/
def stSortAux (le : α → α → Bool) (s l : List α) : List α :=
  l.foldl (fun t x => stInsert le x t) s

/-- The parsed sort key of an entry, with unparseable dates collapsed to `0`
(only used on entries whose date is known to parse). -/
def dateKey (pd : String → Option Int) (e : Entry) : Int :=
  (pd e.email.date).getD 0

/-- The comparator induced by the parsed keys alone; on entries whose dates
all parse it agrees with `jsLe` and is globally total and transitive. -/
def keyLe (pd : String → Option Int) (a b : Entry) : Bool :=
  decide (dateKey pd b ≤ dateKey pd a)

/-- Line 386: sort the collected entries (the wrapping `try {} catch (_) {}`
means the sort can never abort the request). -/
def sortEntries (pd : String → Option Int) (l : List Entry) : List Entry :=
  stSort (jsLe pd) l

/-- The JSON body answered by `GET /api/emails/filter`.  The zero-account
early return of line 301 sends `{ filteredEmails: [] }` WITHOUT a
`totalFound` field, hence the `Option`. -/
structure FilterResponse where
  filteredEmails : List Entry
  totalFound : Option Nat
deriving DecidableEq, Repr

/-- Lines 292-398, `GET /api/emails/filter`: the whole multi-account
filter-by-category pipeline.  `rm` is `parseInt(maxResults)` (default 20);
`poolSize = Math.max(requestedMax, 100)` (line 296). -/
def filterRoute (pd : String → Option Int) (envs : List AccountEnv)
    (t : String) (rm : Nat) : FilterResponse :=
  match envs with
  | [] => ⟨[], none⟩
  | _ =>
    let all := (collectAll envs t rm (max rm 100)).1
    ⟨(sortEntries pd all).take rm, some all.length⟩

/-! ## Smart filter (lines 612-670, `POST /api/emails/:accountId/smart-filter`) -/

/-- The `switch (filterType)` of lines 635-647 choosing the backend task name
(unknown kinds hit the `default` arm). -/
def sfTaskName (ft : String) : String :=
  if ft = "priority" then "priority_score"
  else if ft = "categorize" then "smart_categorize"
  else if ft = "filter" then "filter_inbox"
  else "filter_inbox"

/-- One element of the smart-filter response.  `.error ()` in `aiAnalysis`
models the catch-arm push `{ error: 'Failed to process with AI' }`
(lines 655-658). -/
structure SFEntry where
  email : Email
  aiAnalysis : Except Unit Judgment
deriving DecidableEq, Repr

/-- The body of the per-message `try` of lines 630-647: detail-fetch then
classify with the mapped task name. -/
def sfCall (env : AccountEnv) (ft : String) (email : Email) :
    Except Unit Judgment := do
  let fe ← env.fetchFull email.id
  env.classify fe (sfTaskName ft)

/-- Lines 629-660 for one summary message: detail-fetch, classify, and push —
note the catch arm still pushes the message, annotated with an error object,
rather than dropping it. -/
def smartFilterOne (env : AccountEnv) (ft : String) (email : Email) : SFEntry :=
  match sfCall env ft email with
  | .ok j => ⟨email, .ok j⟩
  | .error u => ⟨email, .error u⟩

/-- The JSON body answered by the smart-filter route. -/
structure SFResponse where
  filteredEmails : List SFEntry
  totalProcessed : Nat
deriving DecidableEq, Repr

/-- Lines 612-670: the single-account smart-filter variant.  A route-level
`.error ()` models a non-success response (404 for a missing account, 500
when `emailData.emails` is absent — line 624 has no `|| []` guard, so
iterating `undefined` throws). -/
def smartFilterRoute (env : AccountEnv) (ft : String) (mr : Nat) :
    Except Unit SFResponse :=
  if env.tokens = false then .error ()
  else
    match env.getRecent mr with
    | .error u => .error u
    | .ok none => .error ()
    | .ok (some pool) =>
      .ok ⟨pool.map (smartFilterOne env ft), (pool.map (smartFilterOne env ft)).length⟩

/-! ## Insights (lines 673-760, `GET /api/emails/:accountId/insights`) -/

/-- JS object used as a counter: an association list in key-insertion order
(`obj[k] = (obj[k] || 0) + 1`). -/
def bump (m : List (String × Nat)) (k : String) : List (String × Nat) :=
  match m with
  | [] => [(k, 1)]
  | (k', v) :: rest => if k' = k then (k', v + 1) :: rest else (k', v) :: bump rest k

/-- `obj[k]` on a counter object (keys looked up are always present). -/
def lookupNat (m : List (String × Nat)) (k : String) : Nat :=
  ((m.find? (fun p => p.1 = k)).map (fun p => p.2)).getD 0

/-- Everything before `'<'` in a char list (JS `s.split('<')[0]`). -/
def takeUntilLt : List Char → List Char
  | [] => []
  | c :: rest => if c = '<' then [] else c :: takeUntilLt rest

/-- JS `String.prototype.trim` on a char list. -/
def trimChars (l : List Char) : List Char :=
  ((l.dropWhile Char.isWhitespace).reverse.dropWhile Char.isWhitespace).reverse

/-- Line 716: `email.from.split('<')[0].trim()`. -/
def senderOf (s : String) : String := ⟨trimChars (takeUntilLt s.toList)⟩

/-- The mutable `insights` object during the analysis loop. -/
structure InsightsAcc where
  categories : List (String × Nat)
  priorityDist : List (String × Nat)
  topSenders : List (String × Nat)
  totalPriority : Int
  processedCount : Nat
  urgentEmails : Nat
deriving DecidableEq, Repr

/-- Lines 710-712: the per-message analysis calls of the insights loop
(detail fetch plus the two classifier calls). -/
def analyzeCall (env : AccountEnv) (email : Email) :
    Except Unit (Judgment × Judgment) := do
  let fe ← env.fetchFull email.id
  let pj ← env.classify fe "priority_score"
  let cj ← env.classify fe "smart_categorize"
  pure (pj, cj)

/-- Lines 709-738: analyze one sampled message; any throw is caught and the
message contributes to no histogram. -/
def analyzeOne (env : AccountEnv) (email : Email) (acc : InsightsAcc) :
    InsightsAcc :=
  match analyzeCall env email with
  | .error _ => acc
  | .ok (pj, cj) =>
    let priority := jsOrInt pj.priority_score 5
    let category := jsOrStr cj.primary_category "other"
    let pl : String := if 8 ≤ priority then "high"
                       else if 5 ≤ priority then "medium" else "low"
    { categories := bump acc.categories category
      priorityDist := bump acc.priorityDist pl
      topSenders := bump acc.topSenders (senderOf email.sender)
      totalPriority := acc.totalPriority + priority
      processedCount := acc.processedCount + 1
      urgentEmails := acc.urgentEmails + (if 8 ≤ priority then 1 else 0) }

/-- Line 708: `for (const email of emails.slice(0, 10))`. -/
def insightsLoop (env : AccountEnv) (emails : List Email) : InsightsAcc :=
  (emails.take 10).foldl (fun acc e => analyzeOne env e acc) ⟨[], [], [], 0, 0, 0⟩

/-- JS `Array.prototype.reduce` with NO initial value: throws a `TypeError`
on an empty array (the `.error ()` case). -/
def jsReduce1 (f : α → α → α) : List α → Except Unit α
  | [] => .error ()
  | x :: xs => .ok (xs.foldl f x)

/-- Line 750-752 reducer: `cats[a] > cats[b] ? a : b`. -/
def pickTop (m : List (String × Nat)) (a b : String) : String :=
  if lookupNat m a > lookupNat m b then a else b

/-- `Math.round(num / den)` for `den > 0` under exact rational arithmetic
(IEEE-754 evaluation of the intermediate quotient can differ on ties that
are not exactly representable; no claim depends on that). -/
def jsRound (num den : Int) : Int := Int.fdiv (2 * num + den) (2 * den)

/-- The JSON body answered by the insights route on success. -/
structure Insights where
  totalEmails : Nat
  categories : List (String × Nat)
  priorityDistribution : List (String × Nat)
  topSenders : List (String × Nat)
  averagePriority : Int
  urgentEmails : Nat
  recommendations : List String
deriving DecidableEq, Repr

/-- Lines 673-760: the insights route.  A route-level `.error ()` models a
non-success response: 404 for a missing account, or the catch-all 500 —
reached in particular when the top-category `reduce` (lines 750-752) runs on
an empty key list and throws. -/
def insightsRoute (env : AccountEnv) : Except Unit Insights :=
  if env.tokens = false then .error ()
  else
    match env.getFiltered with
    | .error u => .error u
    | .ok none => .error ()
    | .ok (some emails) =>
      let acc := insightsLoop env emails
      let avg := if 0 < acc.processedCount
                 then jsRound acc.totalPriority acc.processedCount else 0
      let nUrg := acc.urgentEmails
      let recs0 : List String :=
        if 0 < nUrg
        then [s!"You have {nUrg} urgent emails that need immediate attention."]
        else []
      match jsReduce1 (pickTop acc.categories) (acc.categories.map (fun p => p.1)) with
      | .error u => .error u
      | .ok top =>
        .ok ⟨emails.length, acc.categories, acc.priorityDist, acc.topSenders,
             avg, acc.urgentEmails,
             recs0 ++ [s!"Most of your emails are {top}-related."]⟩

/-! ## Derived definitions used by the statements -/

/-- The entries component of the account loop, as a plain fold (the trace
component never feeds back into the collected entries). -/
def collectEntries (envs : List AccountEnv) (t : String) (rm ps : Nat)
    (acc : List Entry) : List Entry :=
  envs.foldl (fun a env => (accountStep t rm ps a env).1) acc

/-- The bucket survivors an account contributes in the financial branch. -/
def finBucketMatches (env : AccountEnv) (o : Option (List Email)) : List Entry :=
  ((o.getD []).filter
    (fun e => testKeywords financialKeywords (summaryText e))).map (entryOf env)

/-- The ways one account can "fail credential resolution or fetching" in the
filter route: no tokens (line 315), the categorized fetch throwing
(line 319), the general pool fetch throwing (line 340), or the financial
fallback fetch throwing after a fruitless bucket pass (line 328). -/
def accountFails (env : AccountEnv) (t : String) (rm ps : Nat) : Prop :=
  env.tokens = false ∨
  (t = "financial" ∧ env.getCategorized 200 = .error ()) ∨
  (t ≠ "financial" ∧ env.getRecent ps = .error ()) ∨
  (t = "financial" ∧
    (∃ o, env.getCategorized 200 = .ok o ∧ finBucketMatches env o = []) ∧
    env.getRecent rm = .error ())

/-! ## Concrete fixtures (used by witnesses and counterexamples) -/

/-- A fixed date parser: the three fixture dates parse in calendar order,
everything else (in particular `"bad-date"`) fails to parse. -/
def pdFix (s : String) : Option Int :=
  if s = "2024-01-01" then some 100
  else if s = "2024-01-02" then some 200
  else if s = "2024-01-03" then some 300
  else none

def eInvoice : Email := ⟨"m1", "Invoice #221", "your invoice", "", "2024-01-02", "a@b"⟩

def eBillRaw : Email := ⟨"m2", "Electric bill", "monthly bill", "", "2024-01-01", "a@b"⟩

def ePlain : Email := ⟨"m3", "hello", "hi", "hi there", "2024-01-03", "a@b"⟩

def eBadDate : Email := ⟨"mb", "hello", "", "", "bad-date", "x@y"⟩

/-- Urgent-scenario pool: two heuristic matches (`ASAP` in the subject) and
three messages that need semantic scoring. -/
def eU1 : Email := ⟨"u1", "ASAP reply", "", "please", "2024-01-01", "x@y"⟩

def eU2 : Email := ⟨"u2", "Deadline ASAP", "", "go", "2024-01-02", "x@y"⟩

def eU3 : Email := ⟨"u3", "meeting", "", "notes", "2024-01-03", "x@y"⟩

def eU4 : Email := ⟨"u4", "lunch", "", "food", "2024-01-01", "x@y"⟩

def eU5 : Email := ⟨"u5", "greetings", "", "hi", "2024-01-02", "x@y"⟩

/-- A message whose detail fetch throws. -/
def eM : Email := ⟨"m5", "quiet subject", "", "nothing here", "2024-01-01", "x@y"⟩

/-- A message that is processed fine (and matches the urgency heuristic). -/
def eN : Email := ⟨"n5", "reply ASAP", "", "", "2024-01-02", "x@y"⟩

def en1 : Entry := ⟨ePlain, "a1", "a@x"⟩

def en2 : Entry := ⟨eInvoice, "a1", "a@x"⟩

def en3 : Entry := ⟨eBillRaw, "a1", "a@x"⟩

def enBad : Entry := ⟨eBadDate, "a1", "a@x"⟩

/-- An entry whose date ties with `en2` (both parse to 200). -/
def en4 : Entry := ⟨eU5, "a1", "a@x"⟩

/-- An account whose token resolution fails. -/
def envA : AccountEnv :=
  ⟨"aA", "a@x", false, fun _ => .error (), fun _ => .error (),
   fun _ => .error (), fun _ _ => .error (), .error ()⟩

/-- A healthy financial account: its categorized bucket holds one keyword
match (`eInvoice`). -/
def envB : AccountEnv :=
  ⟨"aB", "b@x", true, fun _ => .ok (some [eInvoice]), fun _ => .ok (some []),
   fun _ => .error (), fun _ _ => .error (), .ok (some [])⟩

/-- A financial account with an empty bucket whose raw recent pool holds a
keyword match (`eBillRaw`): its per-account fallback would find it. -/
def envC6b : AccountEnv :=
  ⟨"c6b", "c@x", true, fun _ => .ok (some []), fun _ => .ok (some [eBillRaw]),
   fun _ => .error (), fun _ _ => .error (), .ok (some [])⟩

/-- The urgent-scenario account: pool of five, semantic scores 9/4/4 for the
three non-heuristic messages. -/
def env8 : AccountEnv :=
  ⟨"a8", "e8@x", true, fun _ => .ok (some []),
   fun _ => .ok (some [eU1, eU2, eU3, eU4, eU5]),
   fun i =>
     if i = "u1" then .ok eU1 else if i = "u2" then .ok eU2
     else if i = "u3" then .ok eU3 else if i = "u4" then .ok eU4
     else if i = "u5" then .ok eU5 else .error (),
   fun e _ => if e.id = "u3" then .ok ⟨some 9, none, none⟩
              else .ok ⟨some 4, none, none⟩,
   .ok (some [])⟩

/-- An account whose pool is `[eM, eN]` where `eM`'s detail fetch throws and
`eN` processes fine. -/
def env5 : AccountEnv :=
  ⟨"a5", "e5@x", true, fun _ => .ok (some []), fun _ => .ok (some [eM, eN]),
   fun i => if i = "n5" then .ok eN else .error (),
   fun _ _ => .ok ⟨some 7, some "work", none⟩, .ok (some [])⟩

/-- Insights account: one filtered email whose analysis always throws. -/
def env10 : AccountEnv :=
  ⟨"a10", "e10@x", true, fun _ => .ok (some []), fun _ => .ok (some []),
   fun _ => .error (), fun _ _ => .error (), .ok (some [eM])⟩

/-! ## Stable-sort lemma library for `stInsert` / `stSort` -/

section SortLemmas

variable {α : Type} (le le1 le2 : α → α → Bool)

theorem stInsert_append (x : α) (s : List α) :
    ∃ p q, s = p ++ q ∧ stInsert le x s = p ++ x :: q ∧
      (∀ y ∈ p, le y x = true) ∧ (∀ z zs, q = z :: zs → le z x = false) := by
  induction s with
  | nil => exact ⟨[], [], rfl, rfl, by simp, by simp⟩
  | cons y ys ih =>
    by_cases h : le y x = true
    · obtain ⟨p, q, hpq, heq, hp, hq⟩ := ih
      refine ⟨y :: p, q, by simp [hpq], ?_, ?_, hq⟩
      · simp [stInsert, h, heq]
      · intro z hz
        rcases List.mem_cons.mp hz with rfl | hz
        · exact h
        · exact hp z hz
    · refine ⟨[], y :: ys, rfl, ?_, by simp, ?_⟩
      · simp [stInsert, h]
      · intro z zs hz
        cases hz
        simpa using h

theorem stInsert_sublist (x : α) (s : List α) : s.Sublist (stInsert le x s) := by
  obtain ⟨p, q, hpq, heq, -, -⟩ := stInsert_append le x s
  rw [heq, hpq]
  exact (q.sublist_cons_self x).append_left p

theorem stInsert_perm (x : α) (s : List α) : (stInsert le x s).Perm (x :: s) := by
  induction s with
  | nil => rfl
  | cons y ys ih =>
    by_cases h : le y x = true
    · simpa [stInsert, h] using (ih.cons y).trans (List.Perm.swap x y ys)
    · simp [stInsert, h]

theorem mem_stInsert (a x : α) (s : List α) :
    a ∈ stInsert le x s ↔ a = x ∨ a ∈ s := by
  rw [(stInsert_perm le x s).mem_iff, List.mem_cons]

theorem stInsert_pairwise
    (htrans : ∀ a b c, le a b = true → le b c = true → le a c = true)
    (htotal : ∀ a b, le a b = true ∨ le b a = true)
    (x : α) {s : List α} (hs : s.Pairwise (fun a b => le a b = true)) :
    (stInsert le x s).Pairwise (fun a b => le a b = true) := by
  induction s with
  | nil => simp [stInsert]
  | cons y ys ih =>
    obtain ⟨hy, hys⟩ := List.pairwise_cons.mp hs
    by_cases h : le y x = true
    · rw [show stInsert le x (y :: ys) = y :: stInsert le x ys by simp [stInsert, h]]
      refine List.pairwise_cons.mpr ⟨?_, ih hys⟩
      intro z hz
      rcases (mem_stInsert le z x ys).mp hz with rfl | hz
      · exact h
      · exact hy z hz
    · rw [show stInsert le x (y :: ys) = x :: y :: ys by simp [stInsert, h]]
      have hxy : le x y = true := (htotal x y).resolve_right (by simpa using h)
      refine List.pairwise_cons.mpr ⟨?_, hs⟩
      intro z hz
      rcases List.mem_cons.mp hz with rfl | hz
      · exact hxy
      · exact htrans x y z hxy (hy z hz)

theorem stSort_eq_aux (l : List α) : stSort le l = stSortAux le [] l := rfl

theorem stSortAux_perm (l : List α) : ∀ s, (stSortAux le s l).Perm (s ++ l) := by
  induction l with
  | nil => intro s; simp [stSortAux]
  | cons x xs ih =>
    intro s
    have h1 : stSortAux le s (x :: xs) = stSortAux le (stInsert le x s) xs := rfl
    rw [h1]
    refine (ih (stInsert le x s)).trans ?_
    refine (((stInsert_perm le x s).append_right xs).trans ?_)
    exact List.perm_middle.symm

theorem stSort_perm (l : List α) : (stSort le l).Perm l := by
  simpa using stSortAux_perm le l []

theorem stSortAux_pairwise
    (htrans : ∀ a b c, le a b = true → le b c = true → le a c = true)
    (htotal : ∀ a b, le a b = true ∨ le b a = true)
    (l : List α) : ∀ s, s.Pairwise (fun a b => le a b = true) →
      (stSortAux le s l).Pairwise (fun a b => le a b = true) := by
  induction l with
  | nil => intro s hs; simpa [stSortAux] using hs
  | cons x xs ih =>
    intro s hs
    exact ih (stInsert le x s) (stInsert_pairwise le htrans htotal x hs)

theorem stSort_pairwise
    (htrans : ∀ a b c, le a b = true → le b c = true → le a c = true)
    (htotal : ∀ a b, le a b = true ∨ le b a = true)
    (l : List α) : (stSort le l).Pairwise (fun a b => le a b = true) :=
  stSortAux_pairwise le htrans htotal l [] (by simp)

theorem stInsert_pair_of_mem
    (htrans : ∀ a b c, le a b = true → le b c = true → le a c = true)
    {a b : α} {s : List α} (hs : s.Pairwise (fun a b => le a b = true))
    (ha : a ∈ s) (hab : le a b = true) : List.Sublist [a, b] (stInsert le b s) := by
  obtain ⟨p, q, hpq, heq, -, hq⟩ := stInsert_append le b s
  rw [heq]
  have hap : a ∈ p := by
    rcases List.mem_append.mp (hpq ▸ ha) with h | h
    · exact h
    · exfalso
      cases q with
      | nil => simp at h
      | cons z zs =>
        have hzb : le z b = false := hq z zs rfl
        rcases List.mem_cons.mp h with rfl | h
        · rw [hab] at hzb; cases hzb
        · have hpzzs : (z :: zs).Pairwise (fun a b => le a b = true) := by
            refine List.Pairwise.sublist ?_ (hpq ▸ hs)
            exact List.sublist_append_right p (z :: zs)
          have hza : le z a = true := (List.pairwise_cons.mp hpzzs).1 a h
          have : le z b = true := htrans z a b hza hab
          rw [this] at hzb; cases hzb
  have h1 : List.Sublist [a] p := List.singleton_sublist.mpr hap
  have h2 : List.Sublist [b] (b :: q) := (List.nil_sublist q).cons₂ b
  simpa using h1.append h2

theorem stSortAux_pair
    (htrans : ∀ a b c, le a b = true → le b c = true → le a c = true)
    (htotal : ∀ a b, le a b = true ∨ le b a = true)
    (a b : α) (l : List α) :
    ∀ s, s.Pairwise (fun a b => le a b = true) →
      (List.Sublist [a, b] s ∨ (a ∈ s ∧ b ∈ l ∧ le a b = true) ∨
        (List.Sublist [a, b] l ∧ le a b = true)) →
      List.Sublist [a, b] (stSortAux le s l) := by
  induction l with
  | nil =>
    intro s _ h
    rcases h with h | ⟨-, hb, -⟩ | ⟨h, -⟩
    · simpa [stSortAux] using h
    · simp at hb
    · simp at h
  | cons x xs ih =>
    intro s hs h
    have hs' : (stInsert le x s).Pairwise (fun a b => le a b = true) :=
      stInsert_pairwise le htrans htotal x hs
    have step : stSortAux le s (x :: xs) = stSortAux le (stInsert le x s) xs := rfl
    rw [step]
    rcases h with h | ⟨ha, hb, hab⟩ | ⟨hsub, hab⟩
    · exact ih (stInsert le x s) hs' (Or.inl (h.trans (stInsert_sublist le x s)))
    · rcases List.mem_cons.mp hb with rfl | hb
      · exact ih (stInsert le b s) hs'
          (Or.inl (stInsert_pair_of_mem le htrans hs ha hab))
      · refine ih (stInsert le x s) hs' (Or.inr (Or.inl ⟨?_, hb, hab⟩))
        exact (mem_stInsert le a x s).mpr (Or.inr ha)
    · cases hsub with
      | cons _ h => exact ih (stInsert le x s) hs' (Or.inr (Or.inr ⟨h, hab⟩))
      | cons₂ _ h =>
        refine ih (stInsert le a s) hs' (Or.inr (Or.inl ⟨?_, ?_, hab⟩))
        · exact (mem_stInsert le a a s).mpr (Or.inl rfl)
        · simpa using h

theorem stSort_pair
    (htrans : ∀ a b c, le a b = true → le b c = true → le a c = true)
    (htotal : ∀ a b, le a b = true ∨ le b a = true)
    {a b : α} {l : List α} (hsub : List.Sublist [a, b] l) (hab : le a b = true) :
    List.Sublist [a, b] (stSort le l) :=
  stSortAux_pair le htrans htotal a b l [] (by simp)
    (Or.inr (Or.inr ⟨hsub, hab⟩))

theorem stInsert_congr {x : α} {s : List α}
    (h : ∀ y ∈ s, le1 y x = le2 y x) : stInsert le1 x s = stInsert le2 x s := by
  induction s with
  | nil => rfl
  | cons y ys ih =>
    have hy := h y (by simp)
    by_cases hc : le2 y x = true
    · simp only [stInsert, hy, hc, if_true]
      rw [ih (fun z hz => h z (by simp [hz]))]
    · have hc2 : le2 y x = false := by simpa using hc
      simp [stInsert, hy, hc2]

theorem stSortAux_congr (l : List α) :
    ∀ s, (∀ a, (a ∈ s ∨ a ∈ l) → ∀ b, (b ∈ s ∨ b ∈ l) → le1 a b = le2 a b) →
      stSortAux le1 s l = stSortAux le2 s l := by
  induction l with
  | nil => intro s _; rfl
  | cons x xs ih =>
    intro s h
    have h1 : stInsert le1 x s = stInsert le2 x s :=
      stInsert_congr le1 le2 (fun y hy => h y (Or.inl hy) x (Or.inr (by simp)))
    have step1 : stSortAux le1 s (x :: xs) = stSortAux le1 (stInsert le1 x s) xs := rfl
    have step2 : stSortAux le2 s (x :: xs) = stSortAux le2 (stInsert le2 x s) xs := rfl
    rw [step1, step2, h1]
    refine ih (stInsert le2 x s) ?_
    intro a haa b hbb
    refine h a ?_ b ?_
    · rcases haa with ha | ha
      · rcases (mem_stInsert le2 a x s).mp ha with rfl | ha
        · exact Or.inr (by simp)
        · exact Or.inl ha
      · exact Or.inr (by simp [ha])
    · rcases hbb with hb | hb
      · rcases (mem_stInsert le2 b x s).mp hb with rfl | hb
        · exact Or.inr (by simp)
        · exact Or.inl hb
      · exact Or.inr (by simp [hb])

theorem stSort_congr {l : List α}
    (h : ∀ a ∈ l, ∀ b ∈ l, le1 a b = le2 a b) : stSort le1 l = stSort le2 l := by
  rw [stSort_eq_aux, stSort_eq_aux]
  exact stSortAux_congr le1 le2 l [] (by
    intro a ha b hb
    rcases ha with ha | ha
    · simp at ha
    · rcases hb with hb | hb
      · simp at hb
      · exact h a ha b hb)

end SortLemmas

/-! ## Bridge lemmas between the JS comparator and the key comparator -/

theorem keyLe_trans (pd : String → Option Int) :
    ∀ a b c, keyLe pd a b = true → keyLe pd b c = true → keyLe pd a c = true := by
  intro a b c hab hbc
  simp only [keyLe, decide_eq_true_eq] at hab hbc ⊢
  omega

theorem keyLe_total (pd : String → Option Int) :
    ∀ a b, keyLe pd a b = true ∨ keyLe pd b a = true := by
  intro a b
  simp only [keyLe, decide_eq_true_eq]
  omega

theorem jsLe_eq_keyLe (pd : String → Option Int) {a b : Entry}
    (ha : (pd a.email.date).isSome = true) (hb : (pd b.email.date).isSome = true) :
    jsLe pd a b = keyLe pd a b := by
  obtain ⟨ta, hta⟩ := Option.isSome_iff_exists.mp ha
  obtain ⟨tb, htb⟩ := Option.isSome_iff_exists.mp hb
  simp only [jsLe, jsCompare, keyLe, dateKey, hta, htb, Option.getD_some]
  rw [decide_eq_decide]
  omega

theorem sortEntries_eq_key (pd : String → Option Int) {l : List Entry}
    (hp : ∀ e ∈ l, (pd e.email.date).isSome = true) :
    sortEntries pd l = stSort (keyLe pd) l := by
  unfold sortEntries
  exact stSort_congr _ _ (fun a ha b hb => jsLe_eq_keyLe pd (hp a ha) (hp b hb))

/-! ## Helper lemmas about the pipeline -/

theorem financialStep_classify_irrel (env : AccountEnv)
    (f g : Email → String → Except Unit Judgment) (rm : Nat) (acc : List Entry) :
    financialStep {env with classify := f} rm acc =
      financialStep {env with classify := g} rm acc := rfl

theorem collectEntries_nil (t : String) (rm ps : Nat) (acc : List Entry) :
    collectEntries [] t rm ps acc = acc := rfl

theorem collectEntries_cons (env : AccountEnv) (envs : List AccountEnv)
    (t : String) (rm ps : Nat) (acc : List Entry) :
    collectEntries (env :: envs) t rm ps acc =
      collectEntries envs t rm ps (accountStep t rm ps acc env).1 := rfl

theorem collectAll_fst (envs : List AccountEnv) (t : String) (rm ps : Nat) :
    (collectAll envs t rm ps).1 = collectEntries envs t rm ps [] := by
  suffices h : ∀ p : List Entry × List Nat,
      (envs.foldl (fun p env =>
        let r := accountStep t rm ps p.1 env
        (r.1, p.2 ++ r.2)) p).1 = collectEntries envs t rm ps p.1 by
    exact h ([], [])
  induction envs with
  | nil => intro p; rfl
  | cons e es ih =>
    intro p
    exact ih _

theorem accountStep_fails {env : AccountEnv} {t : String} {rm ps : Nat}
    (h : accountFails env t rm ps) :
    ∀ acc, (accountStep t rm ps acc env).1 = acc := by
  intro acc
  by_cases htok : env.tokens = false
  · simp [accountStep, htok]
  · rcases h with h | ⟨hf, hc⟩ | ⟨hnf, hr⟩ | ⟨hf, ⟨o, ho, hbm⟩, hr⟩
    · exact absurd h htok
    · subst hf
      simp [accountStep, htok, financialStep, hc]
    · simp [accountStep, htok, hnf, generalStep, hr]
    · subst hf
      simp only [finBucketMatches] at hbm
      simp [accountStep, htok, financialStep, ho, hbm, hr]
      split <;> rfl

theorem generalStep_drop {env : AccountEnv} {t : String} {ps : Nat}
    {l1 l2 : List Email} {m : Email}
    (hpool : env.getRecent ps = .ok (some (l1 ++ m :: l2)))
    (hm : processOneE env t m = .error ()) (acc : List Entry) :
    (generalStep env t ps acc).1 = acc ++ (l1 ++ l2).filterMap (processOne env t) := by
  simp [generalStep, hpool, List.filterMap_append, List.filterMap_cons, processOne, hm]

theorem generalStep_trace (env : AccountEnv) (t : String) (ps : Nat)
    (acc : List Entry) : (generalStep env t ps acc).2 = [ps] := by
  unfold generalStep
  cases env.getRecent ps <;> rfl

theorem financialStep_trace (env : AccountEnv) (rm : Nat) (acc : List Entry) :
    (financialStep env rm acc).2 = [] ∨ (financialStep env rm acc).2 = [200] ∨
      (financialStep env rm acc).2 = [200, rm] := by
  unfold financialStep
  cases env.getCategorized 200 with
  | error u => exact Or.inl rfl
  | ok o =>
    dsimp only
    split
    · cases env.getRecent rm <;> simp
    · simp

theorem accountStep_trace (t : String) (rm ps : Nat) (acc : List Entry)
    (env : AccountEnv) :
    ∀ x ∈ (accountStep t rm ps acc env).2,
      (t = "financial" ∧ (x = 200 ∨ x = rm)) ∨ (t ≠ "financial" ∧ x = ps) := by
  intro x hx
  by_cases htok : env.tokens = false
  · simp [accountStep, htok] at hx
  · have ht : env.tokens = true := by
      cases hcase : env.tokens with
      | false => exact absurd hcase htok
      | true => rfl
    by_cases hf : t = "financial"
    · subst hf
      refine Or.inl ⟨rfl, ?_⟩
      have hx2 : x ∈ (financialStep env rm acc).2 := by
        simpa [accountStep, ht] using hx
      rcases financialStep_trace env rm acc with h | h | h <;> rw [h] at hx2
      · simp at hx2
      · simp at hx2
        exact Or.inl hx2
      · simpa using hx2
    · refine Or.inr ⟨hf, ?_⟩
      have hx2 : x ∈ (generalStep env t ps acc).2 := by
        simpa [accountStep, ht, hf] using hx
      rw [generalStep_trace] at hx2
      simpa using hx2

theorem collectAll_trace (envs : List AccountEnv) (t : String) (rm ps : Nat) :
    ∀ x ∈ (collectAll envs t rm ps).2,
      (t = "financial" ∧ (x = 200 ∨ x = rm)) ∨ (t ≠ "financial" ∧ x = ps) := by
  suffices h : ∀ p : List Entry × List Nat,
      (∀ x ∈ p.2, (t = "financial" ∧ (x = 200 ∨ x = rm)) ∨ (t ≠ "financial" ∧ x = ps)) →
      ∀ x ∈ (envs.foldl (fun p env =>
        let r := accountStep t rm ps p.1 env
        (r.1, p.2 ++ r.2)) p).2,
        (t = "financial" ∧ (x = 200 ∨ x = rm)) ∨ (t ≠ "financial" ∧ x = ps) by
    exact h ([], []) (by simp)
  induction envs with
  | nil => intro p hp x hx; exact hp x hx
  | cons e es ih =>
    intro p hp x hx
    refine ih _ ?_ x hx
    intro y hy
    rcases List.mem_append.mp hy with hy | hy
    · exact hp y hy
    · exact accountStep_trace t rm ps p.1 e y hy

theorem insightsLoop_of_fail {env : AccountEnv} {emails : List Email}
    (h : ∀ e ∈ emails.take 10, analyzeCall env e = .error ()) :
    insightsLoop env emails = ⟨[], [], [], 0, 0, 0⟩ := by
  unfold insightsLoop
  generalize hl : emails.take 10 = l at h
  clear hl
  induction l with
  | nil => rfl
  | cons e es ih =>
    have he := h e (by simp)
    have hstep : analyzeOne env e ⟨[], [], [], 0, 0, 0⟩ = ⟨[], [], [], 0, 0, 0⟩ := by
      simp [analyzeOne, he]
    simp only [List.foldl_cons, hstep]
    exact ih (fun x hx => h x (by simp [hx]))

/-! ## Claims -/

/-- C1: for every task and candidate message, a keyword-heuristic match is
recorded as a match with zero semantic-classifier calls for that
message/task pair; the semantic classifier is invoked only when the
heuristic does not match; and the financial branch never consults the
semantic classifier at all. -/
theorem c1_heuristic_short_circuit (env : AccountEnv) (t : String) (fe : Email) :
    (heuristicFor t (fullText fe) = true → decideInclude env t fe = (.ok true, 0)) ∧
    ((decideInclude env t fe).2 ≠ 0 → heuristicFor t (fullText fe) = false) ∧
    (∀ f g rm acc, financialStep {env with classify := f} rm acc =
      financialStep {env with classify := g} rm acc) := by
  have main : heuristicFor t (fullText fe) = true →
      decideInclude env t fe = (.ok true, 0) := by
    intro h
    by_cases h1 : t = "urgent"
    · subst h1
      simp +decide [heuristicFor] at h
      simp +decide [decideInclude, h]
    · by_cases h2 : t = "leads"
      · subst h2
        simp +decide [heuristicFor] at h
        simp +decide [decideInclude, h]
      · by_cases h3 : t = "social"
        · subst h3
          simp +decide [heuristicFor] at h
          simp +decide [decideInclude, h]
        · simp [heuristicFor, h1, h2, h3] at h
  refine ⟨main, ?_, ?_⟩
  · intro h2
    by_contra hne
    have hT : heuristicFor t (fullText fe) = true := by
      cases hcase : heuristicFor t (fullText fe) with
      | false => exact absurd hcase hne
      | true => rfl
    rw [main hT] at h2
    simp at h2
  · intro f g rm acc
    exact financialStep_classify_irrel env f g rm acc

/-- C1 witness: a message with `ASAP` in the subject is matched for the
urgent task with zero semantic calls. -/
theorem c1_witness : decideInclude env8 "urgent" eU1 = (.ok true, 0) :=
  (c1_heuristic_short_circuit env8 "urgent" eU1).1 (by decide)

/-- C8: for the urgent task, a message that misses the urgency heuristic is
included iff its semantic priority score (with a missing/null score
defaulting to the mid-scale 5) is at least 8; in particular a missing score
yields 5 and the message is excluded. -/
theorem c8_priority_default (env : AccountEnv) (e : Email) (j : Judgment)
    (hh : testKeywords urgentKeywords (fullText e) = false)
    (hc : env.classify e "priority_score" = .ok j) :
    ((decideInclude env "urgent" e).1 = .ok true ↔ 8 ≤ jsOrInt j.priority_score 5) ∧
    (j.priority_score = none →
      (decideInclude env "urgent" e).1 = .ok false ∧ jsOrInt j.priority_score 5 = 5) := by
  constructor
  · simp [decideInclude, hh, hc]
  · intro hnone
    simp [decideInclude, hh, hc, hnone, jsOrInt]

/-- C8 witness: the spec scenario — a pool of five urgent-task candidates,
two heuristic matches and semantic scores 9/4/4 for the rest, yields exactly
three matches; the theorem instance at the score-9 message. -/
theorem c8_witness :
    ((testKeywords urgentKeywords (fullText eU3) = false ∧
      env8.classify eU3 "priority_score" = .ok ⟨some 9, none, none⟩) ∧
     ((decideInclude env8 "urgent" eU3).1 = .ok true ↔
       8 ≤ jsOrInt (Judgment.mk (some 9) none none).priority_score 5)) ∧
    (generalStep env8 "urgent" 100 []).1.length = 3 :=
  ⟨⟨⟨by decide, by decide⟩,
    (c8_priority_default env8 eU3 ⟨some 9, none, none⟩ (by decide) (by decide)).1⟩,
   by decide⟩

/-- C2 counterexample: a message whose date fails to parse does NOT sort as
the oldest.  The line-386 comparator yields NaN (treated as `+0`) against
every opponent, so `enBad` ties with everything and the stable sort leaves
it in front of a newer, parseable message instead of moving it to the end. -/
theorem c2_counterexample :
    pdFix eBadDate.date = none ∧
    (pdFix ePlain.date).isSome = true ∧
    sortEntries pdFix [enBad, en1] = [enBad, en1] ∧
    sortEntries pdFix [enBad, en1] ≠ [en1, enBad] := by
  refine ⟨rfl, rfl, by decide, by decide⟩

/-- C2 (amended): when every date parses, the aggregate is a permutation of
the matches sorted by date descending, and messages with equal dates keep
their source-encounter order (stable sort); a message with an unparseable
date instead compares equal to every other message and keeps its encounter
position (see the counterexample), and the sort never crashes. -/
theorem c2_sort_desc_stable (pd : String → Option Int) (l : List Entry)
    (hp : ∀ e ∈ l, (pd e.email.date).isSome = true) :
    (sortEntries pd l).Perm l ∧
    (sortEntries pd l).Pairwise (fun a b => jsLe pd a b = true) ∧
    (∀ a b : Entry, List.Sublist [a, b] l → jsCompare pd a b = 0 →
      List.Sublist [a, b] (sortEntries pd l)) := by
  rw [sortEntries_eq_key pd hp]
  refine ⟨stSort_perm _ l, ?_, ?_⟩
  · have hpair := stSort_pairwise (keyLe pd) (keyLe_trans pd) (keyLe_total pd) l
    have hmem : ∀ x ∈ stSort (keyLe pd) l, x ∈ l :=
      fun x hx => (stSort_perm (keyLe pd) l).mem_iff.mp hx
    refine hpair.imp_of_mem ?_
    intro a b ha hb hk
    rw [jsLe_eq_keyLe pd (hp a (hmem a ha)) (hp b (hmem b hb))]
    exact hk
  · intro a b hsub hcmp
    have ha : a ∈ l := hsub.subset (by simp)
    have hb : b ∈ l := hsub.subset (by simp)
    obtain ⟨ta, hta⟩ := Option.isSome_iff_exists.mp (hp a ha)
    obtain ⟨tb, htb⟩ := Option.isSome_iff_exists.mp (hp b hb)
    have hk : keyLe pd a b = true := by
      simp only [jsCompare, hta, htb] at hcmp
      simp only [keyLe, dateKey, hta, htb, Option.getD_some, decide_eq_true_eq]
      omega
    exact stSort_pair (keyLe pd) (keyLe_trans pd) (keyLe_total pd) hsub hk

/-- C2 witness: the amended sort properties at a concrete three-entry list
whose dates all parse, including a stability instance for the date tie
between `en2` and `en4`. -/
theorem c2_witness :
    (sortEntries pdFix [en3, en2, en4]).Perm [en3, en2, en4] ∧
    (sortEntries pdFix [en3, en2, en4]).Pairwise
      (fun a b => jsLe pdFix a b = true) ∧
    List.Sublist [en2, en4] (sortEntries pdFix [en3, en2, en4]) := by
  have h := c2_sort_desc_stable pdFix [en3, en2, en4] (by decide)
  exact ⟨h.1, h.2.1, h.2.2 en2 en4 (by decide) (by decide)⟩

/-- C3 counterexample: with zero linked accounts the route answers the early
return `{ filteredEmails: [] }` of line 301, which contains NO `totalFound`
field — so "the response includes totalFound" fails for such requests. -/
theorem c3_counterexample :
    filterRoute pdFix [] "urgent" 20 = ⟨[], none⟩ ∧
    (filterRoute pdFix [] "urgent" 20).totalFound ≠ some 0 := by
  exact ⟨rfl, by decide⟩

/-- C3 (amended): for every request with at least one linked account, the
returned results are the first `desiredCount` elements of the globally
sorted cross-account match list (truncation after the global sort),
`totalFound` is the pre-truncation match count, and hence
`len(results) ≤ desiredCount` and `len(results) ≤ totalFound`; with zero
accounts the early return omits `totalFound` (see the counterexample). -/
theorem c3_truncate_after_sort (pd : String → Option Int)
    (envs : List AccountEnv) (t : String) (rm : Nat) (hne : envs ≠ []) :
    (filterRoute pd envs t rm).filteredEmails =
      (sortEntries pd (collectAll envs t rm (max rm 100)).1).take rm ∧
    (filterRoute pd envs t rm).totalFound =
      some (collectAll envs t rm (max rm 100)).1.length ∧
    (filterRoute pd envs t rm).filteredEmails.length ≤ rm ∧
    (filterRoute pd envs t rm).filteredEmails.length ≤
      (collectAll envs t rm (max rm 100)).1.length := by
  match envs, hne with
  | e :: es, _ =>
    refine ⟨rfl, rfl, ?_, ?_⟩
    · simp [filterRoute]
    · have hlen : (sortEntries pd (collectAll (e :: es) t rm (max rm 100)).1).length =
          (collectAll (e :: es) t rm (max rm 100)).1.length :=
        (stSort_perm _ _).length_eq
      calc (filterRoute pd (e :: es) t rm).filteredEmails.length
          ≤ (sortEntries pd (collectAll (e :: es) t rm (max rm 100)).1).length := by
            simp [filterRoute]
        _ = _ := hlen

/-- C3 witness: the amended statement at a one-account financial request. -/
theorem c3_witness :
    ([envB] ≠ ([] : List AccountEnv)) ∧
    ((filterRoute pdFix [envB] "financial" 20).filteredEmails =
      (sortEntries pdFix (collectAll [envB] "financial" 20 (max 20 100)).1).take 20 ∧
     (filterRoute pdFix [envB] "financial" 20).totalFound =
      some (collectAll [envB] "financial" 20 (max 20 100)).1.length ∧
     (filterRoute pdFix [envB] "financial" 20).filteredEmails.length ≤ 20 ∧
     (filterRoute pdFix [envB] "financial" 20).filteredEmails.length ≤
      (collectAll [envB] "financial" 20 (max 20 100)).1.length) :=
  ⟨List.cons_ne_nil _ _,
   c3_truncate_after_sort pdFix [envB] "financial" 20 (List.cons_ne_nil _ _)⟩

/-- C4: account-failure isolation — when account `A` fails credential
resolution or fetching, the aggregate over `[A, B]` (either order) is
exactly what `B` alone produces, and with zero linked accounts the route
answers the empty success response, not an error. -/
theorem c4_account_isolation (pd : String → Option Int) (t : String) (rm : Nat)
    (A B : AccountEnv) (hA : accountFails A t rm (max rm 100)) :
    filterRoute pd [A, B] t rm = filterRoute pd [B] t rm ∧
    filterRoute pd [B, A] t rm = filterRoute pd [B] t rm ∧
    (collectAll [A, B] t rm (max rm 100)).1 = (collectAll [B] t rm (max rm 100)).1 ∧
    filterRoute pd [] t rm = ⟨[], none⟩ := by
  have hstep := accountStep_fails hA
  have hAB : (collectAll [A, B] t rm (max rm 100)).1 =
      (collectAll [B] t rm (max rm 100)).1 := by
    rw [collectAll_fst, collectAll_fst]
    simp only [collectEntries_cons, collectEntries_nil, hstep]
  have hBA : (collectAll [B, A] t rm (max rm 100)).1 =
      (collectAll [B] t rm (max rm 100)).1 := by
    rw [collectAll_fst, collectAll_fst]
    simp only [collectEntries_cons, collectEntries_nil, hstep]
  refine ⟨?_, ?_, hAB, rfl⟩
  · show FilterResponse.mk _ _ = FilterResponse.mk _ _
    rw [hAB]
  · show FilterResponse.mk _ _ = FilterResponse.mk _ _
    rw [hBA]

/-- C4 witness: a token-less account `envA` beside the healthy `envB`. -/
theorem c4_witness :
    accountFails envA "financial" 20 (max 20 100) ∧
    (filterRoute pdFix [envA, envB] "financial" 20 =
       filterRoute pdFix [envB] "financial" 20 ∧
     filterRoute pdFix [envB, envA] "financial" 20 =
       filterRoute pdFix [envB] "financial" 20 ∧
     (collectAll [envA, envB] "financial" 20 (max 20 100)).1 =
       (collectAll [envB] "financial" 20 (max 20 100)).1 ∧
     filterRoute pdFix [] "financial" 20 = ⟨[], none⟩) :=
  ⟨Or.inl rfl, c4_account_isolation pdFix "financial" 20 envA envB (Or.inl rfl)⟩

/-- C5: per-message failure isolation in the filter route — when processing
(detail fetch or classification) throws for `m` but succeeds for `n` in the
same account's pool, the account's contribution is exactly what the pool
without `m` yields (iteration continues past `m`), `n`'s entry appears when
it matches, `m` contributes nothing, and the route still answers a normal
response (with a `totalFound` field), never a request-level error. -/
theorem c5_message_isolation (env : AccountEnv) (t : String) (ps : Nat)
    (acc : List Entry) (l1 l2 : List Email) (m n : Email) (en : Entry)
    (hpool : env.getRecent ps = .ok (some (l1 ++ m :: l2)))
    (hm : processOneE env t m = .error ())
    (hn : n ∈ l1 ++ l2)
    (hok : processOneE env t n = .ok (some en)) :
    (generalStep env t ps acc).1 = acc ++ (l1 ++ l2).filterMap (processOne env t) ∧
    en ∈ (generalStep env t ps acc).1 ∧
    (∀ pd rm envs, envs ≠ [] →
      ((filterRoute pd envs t rm).totalFound).isSome = true) := by
  have hdrop := generalStep_drop hpool hm acc
  refine ⟨hdrop, ?_, ?_⟩
  · rw [hdrop]
    refine List.mem_append.mpr (Or.inr ?_)
    exact List.mem_filterMap.mpr ⟨n, hn, by simp [processOne, hok]⟩
  · intro pd rm envs hne
    match envs, hne with
    | e :: es, _ => rfl

/-- C5 witness: in `env5`'s pool `[eM, eN]`, `eM`'s detail fetch throws and
`eN` matches; the account contributes exactly `eN`'s entry and the route
answers normally. -/
theorem c5_witness :
    (generalStep env5 "urgent" 100 []).1 =
      [] ++ ([] ++ [eN]).filterMap (processOne env5 "urgent") ∧
    (⟨eN, "a5", "e5@x"⟩ : Entry) ∈ (generalStep env5 "urgent" 100 []).1 ∧
    ((filterRoute pdFix [env5] "urgent" 20).totalFound).isSome = true := by
  have h := c5_message_isolation env5 "urgent" 100 [] [] [eN] eM eN
    ⟨eN, "a5", "e5@x"⟩ (by decide) (by decide) (by decide) (by decide)
  exact ⟨h.1, h.2.1, h.2.2 pdFix 20 [env5] (List.cons_ne_nil _ _)⟩

/-- C6 counterexample: with two financial accounts, account `envB`'s bucket
match suppresses the fallback of account `envC6b` even though ZERO results
survived `envC6b`'s own bucket step — the fallback guard reads the global
collector, not a per-account count.  Run per-account (empty collector),
`envC6b`'s fallback does find `eBillRaw`; in the aggregate run that match is
absent. -/
theorem c6_counterexample :
    (collectAll [envB, envC6b] "financial" 20 100).1 =
      [⟨eInvoice, "aB", "b@x"⟩] ∧
    (financialStep envC6b 20 []).1 = [⟨eBillRaw, "c6b", "c@x"⟩] := by
  exact ⟨by decide, by decide⟩

/-- C6 (amended): per account, the financial pipeline applies the keyword
heuristic to the categorized bucket; the heuristic-only raw-pool fallback
(which fetches `desiredCount` messages) runs iff the GLOBAL collector —
earlier accounts' matches plus this account's bucket survivors — is empty,
not merely this account's bucket step; and the financial branch never calls
the semantic classifier. -/
theorem c6_financial_bucket_fallback (env : AccountEnv) (rm : Nat)
    (acc : List Entry) (o : Option (List Email))
    (ho : env.getCategorized 200 = .ok o) :
    ((acc ++ finBucketMatches env o).length ≠ 0 →
      financialStep env rm acc = (acc ++ finBucketMatches env o, [200])) ∧
    ((acc ++ finBucketMatches env o).length = 0 →
      (financialStep env rm acc).2 = [200, rm]) ∧
    (∀ f g, financialStep {env with classify := f} rm acc =
      financialStep {env with classify := g} rm acc) := by
  refine ⟨?_, ?_, fun f g => financialStep_classify_irrel env f g rm acc⟩
  · intro hne
    simp only [financialStep, ho, finBucketMatches] at hne ⊢
    rw [if_neg hne]
  · intro hz
    simp only [financialStep, ho, finBucketMatches] at hz ⊢
    rw [if_pos hz]
    cases env.getRecent rm <;> rfl

/-- C6 witness: `envB`'s bucket survivor makes the collector non-empty, so
its financial step is exactly the bucket contribution with no fallback
fetch. -/
theorem c6_witness :
    financialStep envB 20 [] =
      ([] ++ finBucketMatches envB (some [eInvoice]), [200]) :=
  (c6_financial_bucket_fallback envB 20 [] (some [eInvoice]) (by decide)).1
    (by decide)

/-- C7 counterexample: for a financial request with `desiredCount = 20`, the
fallback raw scan requests exactly 20 messages — below the claimed
`max(desiredCount, 100) = 100` floor. -/
theorem c7_counterexample :
    (collectAll [envC6b] "financial" 20 (max 20 100)).2 = [200, 20] ∧
    ¬ (max 20 100 ≤ 20) := by
  exact ⟨by decide, by decide⟩

/-- C7 (amended): general-task pool fetches request exactly
`max(desiredCount, 100)` (hence at least the floor 100 and at least
`desiredCount`); the financial branch instead issues its categorized fetch
with the fixed size 200 and its fallback raw scan with exactly
`desiredCount`, which is not widened to the floor. -/
theorem c7_pool_floor (envs : List AccountEnv) (t : String) (rm : Nat) :
    (t ≠ "financial" → ∀ x ∈ (collectAll envs t rm (max rm 100)).2,
      x = max rm 100 ∧ 100 ≤ x ∧ rm ≤ x) ∧
    (t = "financial" → ∀ x ∈ (collectAll envs t rm (max rm 100)).2,
      x = 200 ∨ x = rm) := by
  constructor
  · intro hnf x hx
    rcases collectAll_trace envs t rm (max rm 100) x hx with ⟨hf, -⟩ | ⟨-, hps⟩
    · exact absurd hf hnf
    · subst hps
      exact ⟨rfl, Nat.le_max_right rm 100, Nat.le_max_left rm 100⟩
  · intro hf x hx
    rcases collectAll_trace envs t rm (max rm 100) x hx with ⟨-, h⟩ | ⟨hnf, -⟩
    · exact h
    · exact absurd hf hnf

/-- C7 witness: the one pool fetch of a general-task request with
`desiredCount = 20` asks for `max(20, 100) = 100` messages. -/
theorem c7_witness : 100 = max 20 100 ∧ 100 ≤ 100 ∧ 20 ≤ 100 :=
  (c7_pool_floor [env8] "urgent" 20).1 (by decide) 100 (by decide)

/-- C9 counterexample: in the smart-filter route a message whose processing
throws (`eM`: detail fetch fails) is NOT removed from the results — it is
pushed with an error-marked analysis, so it appears in the response. -/
theorem c9_counterexample :
    sfCall env5 "priority" eM = .error () ∧
    smartFilterRoute env5 "priority" 10 =
      .ok ⟨[⟨eM, .error ()⟩, ⟨eN, .ok ⟨some 7, some "work", none⟩⟩], 2⟩ ∧
    (smartFilterRoute env5 "priority" 10).map
      (fun r => r.filteredEmails.map (fun s => s.email)) = .ok [eM, eN] := by
  exact ⟨by decide, by decide, by decide⟩

/-- C9 (amended): in the multi-account filter route a failed message is
dropped and removes only itself from the account's contribution; in the
smart-filter variant, however, a failed message is NOT removed — every
pooled message appears exactly once in the response, a failed one with an
error-marked analysis in place of an AI result. -/
theorem c9_failure_scope (env : AccountEnv) (ft : String) (mr : Nat)
    (pool : List Email) (htok : env.tokens = true)
    (hpool : env.getRecent mr = .ok (some pool)) :
    smartFilterRoute env ft mr =
      .ok ⟨pool.map (smartFilterOne env ft), pool.length⟩ ∧
    (pool.map (smartFilterOne env ft)).map (fun s => s.email) = pool ∧
    (∀ e ∈ pool, sfCall env ft e = .error () →
      SFEntry.mk e (.error ()) ∈ pool.map (smartFilterOne env ft)) ∧
    (∀ t ps acc l1 l2 m, env.getRecent ps = .ok (some (l1 ++ m :: l2)) →
      processOneE env t m = .error () →
      (generalStep env t ps acc).1 =
        acc ++ (l1 ++ l2).filterMap (processOne env t)) := by
  refine ⟨?_, ?_, ?_, ?_⟩
  · have htok2 : ¬ env.tokens = false := by simp [htok]
    simp [smartFilterRoute, htok2, hpool]
  · clear hpool
    induction pool with
    | nil => rfl
    | cons e es ih =>
      have he : (smartFilterOne env ft e).email = e := by
        unfold smartFilterOne
        split <;> rfl
      simpa [he] using ih
  · intro e he hfail
    refine List.mem_map.mpr ⟨e, he, ?_⟩
    simp [smartFilterOne, hfail]
  · intro t ps acc l1 l2 m hp hm
    exact generalStep_drop hp hm acc

/-- C9 witness: the smart-filter response over `env5`'s pool, in which `eM`
fails and `eN` succeeds, keeps both messages. -/
theorem c9_witness :
    smartFilterRoute env5 "priority" 10 =
      .ok ⟨[eM, eN].map (smartFilterOne env5 "priority"),
           ([eM, eN] : List Email).length⟩ :=
  (c9_failure_scope env5 "priority" 10 [eM, eN] rfl (by decide)).1

/-- C10: when the insights route analyzes zero emails (empty filtered pool,
or every analysis in the 10-message sample throws), the categories
histogram is empty and the no-initial-value `reduce` over its keys throws,
so the caller receives a request-level error response rather than an
insights object. -/
theorem c10_empty_insights_error (env : AccountEnv) (emails : List Email)
    (htok : env.tokens = true)
    (hfil : env.getFiltered = .ok (some emails))
    (hfail : ∀ e ∈ emails.take 10, analyzeCall env e = .error ()) :
    (insightsLoop env emails).categories = [] ∧
    insightsRoute env = .error () := by
  have hloop := insightsLoop_of_fail hfail
  have htok2 : ¬ env.tokens = false := by simp [htok]
  refine ⟨by rw [hloop], ?_⟩
  simp [insightsRoute, htok2, hfil, hloop, jsReduce1]

/-- C10 witness: `env10`'s single filtered email always fails analysis, so
the insights route errors out. -/
theorem c10_witness :
    (insightsLoop env10 [eM]).categories = [] ∧
    insightsRoute env10 = .error () :=
  c10_empty_insights_error env10 [eM] rfl rfl (by decide)

end MailPipeline
